import Mathlib

/-!
Verification development for the XuLang repository: a web compiler that
translates a Portuguese-keyword teaching language to C. The pipeline core
(lexer, parser, symbol table, semantic analyzer, C code generator) lives in
the xu_compiler.py of the backend, which is not present in this source snapshot;
its definitions below are modelled from the specification. The Node backend
(server.js) is present and its request handling, stdin construction, path
resolution and process supervision are embedded directly from that source.
-/

namespace XuLang

/-- The four primitive types of the source language:
INTEIRO, REAL, TEXTO, LOGICO. -/
inductive XuType where
  | int
  | real
  | texto
  | logico
deriving DecidableEq

/-- Token kinds produced by the lexer. Keywords are canonicalized to
uppercase; identifier lexemes are kept as written. -/
inductive TokKind where
  | kw (s : String)
  | ident (s : String)
  | intLit (n : Nat)
  | realLit (s : String)
  | strLit (s : String)
  | op (s : String)
deriving DecidableEq

/-- A positioned token: kind, line and column, immutable once produced. -/
structure Token where
  kind : TokKind
  line : Nat
  col : Nat
deriving DecidableEq

/-- A fatal lexical error with its source position. -/
structure LexErr where
  msg : String
  line : Nat
  col : Nat
deriving DecidableEq

/-- Modelled from the spec: the case-insensitive keyword set of the
language (xu_compiler.py is absent from the snapshot). -/
def keywords : List String :=
  ["DECLARACOES", "PROGRAMA", "INICIO", "FIM", "SE", "ENTAO", "SENAO",
   "ENQUANTO", "LEIA", "ESCREVA", "INTEIRO", "REAL", "TEXTO", "LOGICO",
   "E", "OU"]

/-- Identifiers start with a letter or underscore. -/
def isIdentStart (c : Char) : Bool := c.isAlpha || c = '_'

/-- Identifiers continue with letters, digits or underscore. -/
def isIdentCont (c : Char) : Bool := c.isAlpha || c.isDigit || c = '_'

/-- Decimal value of a digit string. -/
def digitsToNat (cs : List Char) : Nat :=
  cs.foldl (fun n c => n * 10 + (c.toNat - '0'.toNat)) 0

/-- Single-character operators and punctuation. -/
def singleOps : List Char := [':', '+', '-', '*', '/', '(', ')']

/-- Modelled from the spec: the lexer of xu_compiler.py (absent from the
snapshot). Single left-to-right pass over the characters; case-insensitive
keywords; hash line comments discarded; double-quoted strings with no
escapes; real literals need digits on both sides of the point; unknown
characters and unterminated strings are fatal LexicalErrors at their exact
position. The fuel argument only bounds the recursion; every step consumes
at least one character, so fuel one beyond the length is never exhausted. -/
def lexGo : Nat → List Char → Nat → Nat → List Token → Except LexErr (List Token)
  | 0, [], _, _, acc => .ok acc.reverse
  | 0, _ :: _, line, col, _ => .error ⟨"limite interno do lexer", line, col⟩
  | _ + 1, [], _, _, acc => .ok acc.reverse
  | fuel + 1, c :: rest, line, col, acc =>
    if c = ' ' || c = '\t' || c = '\r' then
      lexGo fuel rest line (col + 1) acc
    else if c = '\n' then
      lexGo fuel rest (line + 1) 1 acc
    else if c = '#' then
      lexGo fuel (rest.dropWhile (fun d => d ≠ '\n')) line col acc
    else if c = '"' then
      let content := rest.takeWhile (fun d => d ≠ '"')
      match rest.dropWhile (fun d => d ≠ '"') with
      | '"' :: rest3 =>
        lexGo fuel rest3 line (col + content.length + 2)
          (⟨.strLit ⟨content⟩, line, col⟩ :: acc)
      | _ => .error ⟨"cadeia nao terminada", line, col⟩
    else if isIdentStart c then
      let tail := rest.takeWhile isIdentCont
      let word : String := ⟨c :: tail⟩
      let up : String := ⟨(c :: tail).map Char.toUpper⟩
      let kind := if up ∈ keywords then TokKind.kw up else TokKind.ident word
      lexGo fuel (rest.dropWhile isIdentCont) line (col + word.length)
        (⟨kind, line, col⟩ :: acc)
    else if c.isDigit then
      let ds := rest.takeWhile Char.isDigit
      let rest2 := rest.dropWhile Char.isDigit
      match rest2 with
      | '.' :: d2 :: rest3 =>
        if d2.isDigit then
          let frac := (d2 :: rest3).takeWhile Char.isDigit
          let lexeme : String := ⟨(c :: ds) ++ '.' :: frac⟩
          lexGo fuel ((d2 :: rest3).dropWhile Char.isDigit) line
            (col + lexeme.length) (⟨.realLit lexeme, line, col⟩ :: acc)
        else
          lexGo fuel rest2 line (col + 1 + ds.length)
            (⟨.intLit (digitsToNat (c :: ds)), line, col⟩ :: acc)
      | _ =>
        lexGo fuel rest2 line (col + 1 + ds.length)
          (⟨.intLit (digitsToNat (c :: ds)), line, col⟩ :: acc)
    else if c = '<' then
      match rest with
      | '-' :: r => lexGo fuel r line (col + 2) (⟨.op "<-", line, col⟩ :: acc)
      | '=' :: r => lexGo fuel r line (col + 2) (⟨.op "<=", line, col⟩ :: acc)
      | '>' :: r => lexGo fuel r line (col + 2) (⟨.op "<>", line, col⟩ :: acc)
      | r => lexGo fuel r line (col + 1) (⟨.op "<", line, col⟩ :: acc)
    else if c = '>' then
      match rest with
      | '=' :: r => lexGo fuel r line (col + 2) (⟨.op ">=", line, col⟩ :: acc)
      | r => lexGo fuel r line (col + 1) (⟨.op ">", line, col⟩ :: acc)
    else if c = '=' then
      match rest with
      | '=' :: r => lexGo fuel r line (col + 2) (⟨.op "==", line, col⟩ :: acc)
      | _ => .error ⟨"caractere invalido", line, col⟩
    else if singleOps.contains c then
      lexGo fuel rest line (col + 1) (⟨.op ⟨[c]⟩, line, col⟩ :: acc)
    else
      .error ⟨"caractere invalido", line, col⟩

/-- Modelled from the spec: full lexical analysis of a source text. -/
def lex (src : String) : Except LexErr (List Token) :=
  lexGo (src.length + 1) src.data 1 1 []

/-- Arithmetic expressions: literals, variable references, the four binary
operators, and parentheses. Binary nodes carry the line of the operator token
for diagnostics. -/
inductive AExp where
  | intLit (n : Nat)
  | realLit (s : String)
  | var (name : String) (line : Nat)
  | bin (op : String) (l r : AExp) (line : Nat)
  | paren (e : AExp)
deriving DecidableEq

/-- Relational expressions: comparisons over arithmetic expressions,
logical E / OU, and parentheses. -/
inductive RExp where
  | cmp (op : String) (l r : AExp) (line : Nat)
  | andE (l r : RExp)
  | orE (l r : RExp)
  | paren (r : RExp)
deriving DecidableEq

/-- Statements. A Write argument is, by construction of the grammar,
either a bare identifier or a string literal. The else branch of If is an
empty list when absent. -/
inductive Stmt where
  | assign (target : String) (e : AExp) (line : Nat)
  | readS (target : String) (line : Nat)
  | writeIdent (name : String) (line : Nat)
  | writeStr (s : String) (line : Nat)
  | ifS (cond : RExp) (thenB elseB : List Stmt) (line : Nat)
  | whileS (cond : RExp) (body : List Stmt) (line : Nat)
  | block (body : List Stmt) (line : Nat)

/-- A declaration: name, type and source line. -/
structure Decl where
  name : String
  ty : XuType
  line : Nat
deriving DecidableEq

/-- A program: the declaration section followed by the statement section. -/
structure Program where
  decls : List Decl
  stmts : List Stmt

/-- A fatal syntax error: the first structural error, with its position. -/
structure SynErr where
  msg : String
  line : Nat
  col : Nat
deriving DecidableEq

/-- Parser result: a value plus the unconsumed tokens, or the first
syntax error. -/
abbrev PRes (α : Type) := Except SynErr (α × List Token)

/-- Position of the next token, or of end-of-input. -/
def posOf : List Token → Nat × Nat
  | [] => (0, 0)
  | t :: _ => (t.line, t.col)

/-- Syntax error naming the expected construct and the found token. -/
def errExpected (what : String) (toks : List Token) : SynErr :=
  let p := posOf toks
  ⟨"esperado " ++ what, p.1, p.2⟩

/-- Internal fuel-exhaustion error; unreachable with fuel above the token
count, but the parser is total either way. -/
def fuelErr : SynErr := ⟨"limite interno do parser", 0, 0⟩

/-- Consume one specific operator or punctuation token. -/
def expectOp (s : String) (toks : List Token) : Except SynErr (List Token) :=
  match toks with
  | ⟨.op o, _, _⟩ :: rest =>
    if o = s then .ok rest else .error (errExpected ("simbolo " ++ s) toks)
  | _ => .error (errExpected ("simbolo " ++ s) toks)

/-- Consume one specific keyword token. -/
def expectKw (s : String) (toks : List Token) : Except SynErr (List Token) :=
  match toks with
  | ⟨.kw k, _, _⟩ :: rest =>
    if k = s then .ok rest else .error (errExpected ("palavra-chave " ++ s) toks)
  | _ => .error (errExpected ("palavra-chave " ++ s) toks)

/-- The comparison operators of the grammar. -/
def cmpOps : List String := [">=", "<=", ">", "<", "==", "<>"]

mutual

/-- Modelled from the spec: predictive recursive-descent parser of
xu_compiler.py (absent from the snapshot), implementing the grammar of
section 4.2 with one token of lookahead; the first token that cannot
extend the current production aborts parsing with a single SyntaxError.
Fuel only bounds the recursion depth and is never exhausted when it
exceeds the token count. -/
def parseFactor : Nat → List Token → PRes AExp
  | 0, _ => .error fuelErr
  | fuel + 1, toks =>
    match toks with
    | ⟨.intLit n, _, _⟩ :: rest => .ok (.intLit n, rest)
    | ⟨.realLit s, _, _⟩ :: rest => .ok (.realLit s, rest)
    | ⟨.ident x, line, _⟩ :: rest => .ok (.var x line, rest)
    | ⟨.op "(", _, _⟩ :: rest =>
      match parseAExp fuel rest with
      | .error e => .error e
      | .ok (e, r1) =>
        match expectOp ")" r1 with
        | .error err => .error err
        | .ok r2 => .ok (.paren e, r2)
    | _ => .error (errExpected "fator aritmetico" toks)

def parseTermRest : Nat → AExp → List Token → PRes AExp
  | 0, _, _ => .error fuelErr
  | fuel + 1, acc, toks =>
    match toks with
    | ⟨.op "*", line, _⟩ :: rest =>
      match parseFactor fuel rest with
      | .error e => .error e
      | .ok (f, r1) => parseTermRest fuel (.bin "*" acc f line) r1
    | ⟨.op "/", line, _⟩ :: rest =>
      match parseFactor fuel rest with
      | .error e => .error e
      | .ok (f, r1) => parseTermRest fuel (.bin "/" acc f line) r1
    | _ => .ok (acc, toks)

def parseTerm : Nat → List Token → PRes AExp
  | 0, _ => .error fuelErr
  | fuel + 1, toks =>
    match parseFactor fuel toks with
    | .error e => .error e
    | .ok (f, r1) => parseTermRest fuel f r1

def parseAExpRest : Nat → AExp → List Token → PRes AExp
  | 0, _, _ => .error fuelErr
  | fuel + 1, acc, toks =>
    match toks with
    | ⟨.op "+", line, _⟩ :: rest =>
      match parseTerm fuel rest with
      | .error e => .error e
      | .ok (t, r1) => parseAExpRest fuel (.bin "+" acc t line) r1
    | ⟨.op "-", line, _⟩ :: rest =>
      match parseTerm fuel rest with
      | .error e => .error e
      | .ok (t, r1) => parseAExpRest fuel (.bin "-" acc t line) r1
    | _ => .ok (acc, toks)

def parseAExp : Nat → List Token → PRes AExp
  | 0, _ => .error fuelErr
  | fuel + 1, toks =>
    match parseTerm fuel toks with
    | .error e => .error e
    | .ok (t, r1) => parseAExpRest fuel t r1

end

mutual

/-- Modelled from the spec: relational expressions. On a leading
parenthesis the term parser commits to a parenthesized relational
expression, per the modelled RelTerm alternative. -/
def parseRelTerm : Nat → List Token → PRes RExp
  | 0, _ => .error fuelErr
  | fuel + 1, toks =>
    match toks with
    | ⟨.op "(", _, _⟩ :: rest =>
      match parseRExp fuel rest with
      | .error e => .error e
      | .ok (r, r1) =>
        match expectOp ")" r1 with
        | .error err => .error err
        | .ok r2 => .ok (.paren r, r2)
    | _ =>
      match parseAExp fuel toks with
      | .error e => .error e
      | .ok (l, r1) =>
        match r1 with
        | ⟨.op o, line, _⟩ :: r2 =>
          if o ∈ cmpOps then
            match parseAExp fuel r2 with
            | .error e => .error e
            | .ok (r, r3) => .ok (.cmp o l r line, r3)
          else .error (errExpected "operador relacional" r1)
        | _ => .error (errExpected "operador relacional" r1)

def parseRExpRest : Nat → RExp → List Token → PRes RExp
  | 0, _, _ => .error fuelErr
  | fuel + 1, acc, toks =>
    match toks with
    | ⟨.kw "E", _, _⟩ :: rest =>
      match parseRelTerm fuel rest with
      | .error e => .error e
      | .ok (t, r1) => parseRExpRest fuel (.andE acc t) r1
    | ⟨.kw "OU", _, _⟩ :: rest =>
      match parseRelTerm fuel rest with
      | .error e => .error e
      | .ok (t, r1) => parseRExpRest fuel (.orE acc t) r1
    | _ => .ok (acc, toks)

def parseRExp : Nat → List Token → PRes RExp
  | 0, _ => .error fuelErr
  | fuel + 1, toks =>
    match parseRelTerm fuel toks with
    | .error e => .error e
    | .ok (t, r1) => parseRExpRest fuel t r1

end

/-- Tokens that can start a statement (one-token-lookahead predictive
dispatch): an identifier, LEIA, ESCREVA, SE, ENQUANTO or INICIO. -/
def stmtStart (t : Token) : Bool :=
  match t.kind with
  | .ident _ => true
  | .kw k => k ∈ ["LEIA", "ESCREVA", "SE", "ENQUANTO", "INICIO"]
  | _ => false

mutual

/-- Modelled from the spec: statement parsing, dispatched on the first
token; ESCREVA accepts only a bare identifier or a string literal. -/
def parseStmt : Nat → List Token → PRes Stmt
  | 0, _ => .error fuelErr
  | fuel + 1, toks =>
    match toks with
    | ⟨.ident x, line, _⟩ :: rest =>
      match expectOp "<-" rest with
      | .error e => .error e
      | .ok r1 =>
        match parseAExp fuel r1 with
        | .error e => .error e
        | .ok (e, r2) => .ok (.assign x e line, r2)
    | ⟨.kw "LEIA", line, _⟩ :: rest =>
      match rest with
      | ⟨.ident x, _, _⟩ :: r1 => .ok (.readS x line, r1)
      | _ => .error (errExpected "identificador apos LEIA" rest)
    | ⟨.kw "ESCREVA", line, _⟩ :: rest =>
      match rest with
      | ⟨.ident x, _, _⟩ :: r1 => .ok (.writeIdent x line, r1)
      | ⟨.strLit s, _, _⟩ :: r1 => .ok (.writeStr s line, r1)
      | _ => .error (errExpected "identificador ou cadeia apos ESCREVA" rest)
    | ⟨.kw "SE", line, _⟩ :: rest =>
      match parseRExp fuel rest with
      | .error e => .error e
      | .ok (c, r1) =>
        match expectKw "ENTAO" r1 with
        | .error e => .error e
        | .ok r2 =>
          match parseStmts fuel r2 with
          | .error e => .error e
          | .ok (thenB, r3) =>
            match r3 with
            | ⟨.kw "SENAO", _, _⟩ :: r4 =>
              match parseStmts fuel r4 with
              | .error e => .error e
              | .ok (elseB, r5) =>
                match expectKw "FIM" r5 with
                | .error e => .error e
                | .ok r6 => .ok (.ifS c thenB elseB line, r6)
            | _ =>
              match expectKw "FIM" r3 with
              | .error e => .error e
              | .ok r4 => .ok (.ifS c thenB [] line, r4)
    | ⟨.kw "ENQUANTO", line, _⟩ :: rest =>
      match parseRExp fuel rest with
      | .error e => .error e
      | .ok (c, r1) =>
        match parseStmts fuel r1 with
        | .error e => .error e
        | .ok (body, r2) =>
          match expectKw "FIM" r2 with
          | .error e => .error e
          | .ok r3 => .ok (.whileS c body line, r3)
    | ⟨.kw "INICIO", line, _⟩ :: rest =>
      match parseStmts fuel rest with
      | .error e => .error e
      | .ok (body, r1) =>
        match expectKw "FIM" r1 with
        | .error e => .error e
        | .ok r2 => .ok (.block body line, r2)
    | _ => .error (errExpected "comando" toks)

def parseStmts : Nat → List Token → PRes (List Stmt)
  | 0, _ => .error fuelErr
  | fuel + 1, toks =>
    match toks with
    | t :: _ =>
      if stmtStart t then
        match parseStmt fuel toks with
        | .error e => .error e
        | .ok (s, r1) =>
          match parseStmts fuel r1 with
          | .error e => .error e
          | .ok (ss, r2) => .ok (s :: ss, r2)
      else .ok ([], toks)
    | [] => .ok ([], toks)

end

/-- Parse one declaration: NAME ":" Type. -/
def parseDecl (toks : List Token) : PRes Decl :=
  match toks with
  | ⟨.ident x, line, _⟩ :: rest =>
    match expectOp ":" rest with
    | .error e => .error e
    | .ok r1 =>
      match r1 with
      | ⟨.kw "INTEIRO", _, _⟩ :: r2 => .ok (⟨x, .int, line⟩, r2)
      | ⟨.kw "REAL", _, _⟩ :: r2 => .ok (⟨x, .real, line⟩, r2)
      | ⟨.kw "TEXTO", _, _⟩ :: r2 => .ok (⟨x, .texto, line⟩, r2)
      | ⟨.kw "LOGICO", _, _⟩ :: r2 => .ok (⟨x, .logico, line⟩, r2)
      | _ => .error (errExpected "tipo (INTEIRO, REAL, TEXTO ou LOGICO)" r1)
  | _ => .error (errExpected "identificador de declaracao" toks)

/-- Parse the declaration list: extends while the lookahead is an
identifier. -/
def parseDecls : Nat → List Token → PRes (List Decl)
  | 0, _ => .error fuelErr
  | fuel + 1, toks =>
    match toks with
    | ⟨.ident _, _, _⟩ :: _ =>
      match parseDecl toks with
      | .error e => .error e
      | .ok (d, r1) =>
        match parseDecls fuel r1 with
        | .error e => .error e
        | .ok (ds, r2) => .ok (d :: ds, r2)
    | _ => .ok ([], toks)

/-- Modelled from the spec: whole-program parsing per
Program := ":" DECLARACOES Declaration* ":" PROGRAMA Statement*; any
token left over after the statement section is a SyntaxError. -/
def parseProgram (toks : List Token) : Except SynErr Program :=
  match expectOp ":" toks with
  | .error e => .error e
  | .ok r1 =>
    match expectKw "DECLARACOES" r1 with
    | .error e => .error e
    | .ok r2 =>
      match parseDecls (toks.length + 1) r2 with
      | .error e => .error e
      | .ok (ds, r3) =>
        match expectOp ":" r3 with
        | .error e => .error e
        | .ok r4 =>
          match expectKw "PROGRAMA" r4 with
          | .error e => .error e
          | .ok r5 =>
            match parseStmts (toks.length + 1) r5 with
            | .error e => .error e
            | .ok (ss, r6) =>
              match r6 with
              | [] => .ok ⟨ds, ss⟩
              | t :: _ => .error ⟨"simbolo inesperado apos o programa", t.line, t.col⟩

/-- The flat symbol table: identifier to declared type, first declaration
wins, read-only after construction. -/
abbrev SymbolTable := List (String × XuType)

/-- First-match lookup in the symbol table. -/
def lookupVar : SymbolTable → String → Option XuType
  | [], _ => none
  | (n, t) :: rest, x => if n = x then some t else lookupVar rest x

/-- Semantic errors: the three non-fatal kinds, each with a source line. -/
inductive SemErr where
  | redecl (name : String) (line : Nat)
  | undeclared (name : String) (line : Nat)
  | mismatch (expected found : String) (line : Nat)
deriving DecidableEq

/-- The inferred type of an expression: a known primitive type, or the
unknown placeholder used to suppress cascading errors. -/
inductive ETy where
  | known (t : XuType)
  | unknown
deriving DecidableEq

/-- Numeric types are INTEIRO and REAL. -/
def numeric : XuType → Bool
  | .int => true
  | .real => true
  | .texto => false
  | .logico => false

/-- Numeric, with the unknown placeholder accepted to avoid cascades. -/
def numericOrUnknown : ETy → Bool
  | .unknown => true
  | .known t => numeric t

/-- Source-language name of a type, for diagnostics. -/
def typeName : XuType → String
  | .int => "INTEIRO"
  | .real => "REAL"
  | .texto => "TEXTO"
  | .logico => "LOGICO"

/-- Diagnostic name of an inferred type. -/
def etyName : ETy → String
  | .known t => typeName t
  | .unknown => "desconhecido"

/-- Result type of an arithmetic binary operation: propagates unknown,
yields REAL if either operand is REAL, INTEIRO if both are INTEIRO, and
unknown (after the collected mismatch) on non-numeric operands. -/
def binTy : ETy → ETy → ETy
  | .unknown, _ => .unknown
  | _, .unknown => .unknown
  | .known a, .known b =>
    if numeric a && numeric b then
      if a = .real || b = .real then .known .real else .known .int
    else .unknown

/-- Coercibility into an assignment target: INTEIRO and REAL are mutually
coercible, TEXTO and LOGICO accept only their exact type; the unknown
placeholder is accepted to suppress redundant downstream errors. -/
def coercible : ETy → XuType → Bool
  | .unknown, _ => true
  | .known t, target => t = target || (numeric t && numeric target)

/-- Modelled from the spec: symbol-table construction from the
declaration list (xu_compiler.py is absent). A name seen twice raises
Redeclaration but construction continues, keeping the first type. -/
def buildTableGo (acc : SymbolTable) : List Decl → SymbolTable × List SemErr
  | [] => (acc, [])
  | d :: rest =>
    match lookupVar acc d.name with
    | some _ =>
      let r := buildTableGo acc rest
      (r.1, .redecl d.name d.line :: r.2)
    | none => buildTableGo (acc ++ [(d.name, d.ty)]) rest

/-- Symbol-table construction starting from the empty table. -/
def buildTable (ds : List Decl) : SymbolTable × List SemErr :=
  buildTableGo [] ds

/-- Modelled from the spec: error collection and type inference over an
arithmetic expression; undeclared references become unknown, non-numeric
operands of arithmetic produce a TypeMismatch. -/
def inferA (st : SymbolTable) : AExp → List SemErr × ETy
  | .intLit _ => ([], .known .int)
  | .realLit _ => ([], .known .real)
  | .var x line =>
    match lookupVar st x with
    | some t => ([], .known t)
    | none => ([.undeclared x line], .unknown)
  | .bin _ l r line =>
    let rl := inferA st l
    let rr := inferA st r
    let m1 := if numericOrUnknown rl.2 then [] else
      [SemErr.mismatch "numerico" (etyName rl.2) line]
    let m2 := if numericOrUnknown rr.2 then [] else
      [SemErr.mismatch "numerico" (etyName rr.2) line]
    (rl.1 ++ rr.1 ++ m1 ++ m2, binTy rl.2 rr.2)
  | .paren e => inferA st e

/-- Modelled from the spec: error collection over a relational
expression; both comparison sides must be numeric. -/
def checkRel (st : SymbolTable) : RExp → List SemErr
  | .cmp _ l r line =>
    let rl := inferA st l
    let rr := inferA st r
    let m1 := if numericOrUnknown rl.2 then [] else
      [SemErr.mismatch "numerico" (etyName rl.2) line]
    let m2 := if numericOrUnknown rr.2 then [] else
      [SemErr.mismatch "numerico" (etyName rr.2) line]
    rl.1 ++ rr.1 ++ m1 ++ m2
  | .andE l r => checkRel st l ++ checkRel st r
  | .orE l r => checkRel st l ++ checkRel st r
  | .paren r => checkRel st r

mutual

/-- Modelled from the spec: error collection over one statement. Every
violation in every sub-tree is collected; the walk never stops early. -/
def checkStmt (st : SymbolTable) : Stmt → List SemErr
  | .assign x e line =>
    match lookupVar st x with
    | none => .undeclared x line :: (inferA st e).1
    | some t =>
      let re := inferA st e
      re.1 ++ (if coercible re.2 t then [] else
        [SemErr.mismatch (typeName t) (etyName re.2) line])
  | .readS x line =>
    match lookupVar st x with
    | none => [.undeclared x line]
    | some _ => []
  | .writeIdent x line =>
    match lookupVar st x with
    | none => [.undeclared x line]
    | some _ => []
  | .writeStr _ _ => []
  | .ifS c thenB elseB _ =>
    checkRel st c ++ checkStmts st thenB ++ checkStmts st elseB
  | .whileS c body _ => checkRel st c ++ checkStmts st body
  | .block body _ => checkStmts st body

/-- Error collection over a statement list: the concatenation of each
errors of each statement, in program order. -/
def checkStmts (st : SymbolTable) : List Stmt → List SemErr
  | [] => []
  | s :: rest => checkStmt st s ++ checkStmts st rest

end

/-- Modelled from the spec: the semantic analyzer. Input is a
syntactically valid AST; output is the symbol table and the collected
list of all semantic errors. -/
def analyze (p : Program) : SymbolTable × List SemErr :=
  let r := buildTable p.decls
  (r.1, r.2 ++ checkStmts r.1 p.stmts)

/-- Pure type inference of an arithmetic expression, stated independently
of error collection, used to phrase well-typedness. -/
def tyOf (st : SymbolTable) : AExp → ETy
  | .intLit _ => .known .int
  | .realLit _ => .known .real
  | .var x _ =>
    match lookupVar st x with
    | some t => .known t
    | none => .unknown
  | .bin _ l r _ => binTy (tyOf st l) (tyOf st r)
  | .paren e => tyOf st e

/-- Well-typedness of an arithmetic expression per the type rules of the spec:
every referenced variable is declared and every arithmetic operand is
numeric. -/
def wtA (st : SymbolTable) : AExp → Bool
  | .intLit _ => true
  | .realLit _ => true
  | .var x _ => (lookupVar st x).isSome
  | .bin _ l r _ =>
    wtA st l && wtA st r &&
      numericOrUnknown (tyOf st l) && numericOrUnknown (tyOf st r)
  | .paren e => wtA st e

/-- Well-typedness of a relational expression: both comparison sides are
well-typed and numeric. -/
def wtRel (st : SymbolTable) : RExp → Bool
  | .cmp _ l r _ =>
    wtA st l && wtA st r &&
      numericOrUnknown (tyOf st l) && numericOrUnknown (tyOf st r)
  | .andE l r => wtRel st l && wtRel st r
  | .orE l r => wtRel st l && wtRel st r
  | .paren r => wtRel st r

mutual

/-- Well-typedness of a statement per the type rules of the spec. -/
def wtStmt (st : SymbolTable) : Stmt → Bool
  | .assign x e _ =>
    match lookupVar st x with
    | none => false
    | some t => wtA st e && coercible (tyOf st e) t
  | .readS x _ => (lookupVar st x).isSome
  | .writeIdent x _ => (lookupVar st x).isSome
  | .writeStr _ _ => true
  | .ifS c thenB elseB _ => wtRel st c && wtStmts st thenB && wtStmts st elseB
  | .whileS c body _ => wtRel st c && wtStmts st body
  | .block body _ => wtStmts st body

/-- Well-typedness of a statement list. -/
def wtStmts (st : SymbolTable) : List Stmt → Bool
  | [] => true
  | s :: rest => wtStmt st s && wtStmts st rest

end

/-- No declaration name reoccurs, relative to the names already in acc. -/
def uniqueFrom (acc : SymbolTable) : List Decl → Bool
  | [] => true
  | d :: rest =>
    !(lookupVar acc d.name).isSome && uniqueFrom (acc ++ [(d.name, d.ty)]) rest

/-- A program is well-typed when its declarations are unique and its
statements are well-typed against the first-occurrence symbol table. -/
def wellTypedProgram (p : Program) : Bool :=
  uniqueFrom [] p.decls && wtStmts (buildTable p.decls).1 p.stmts

/-- The C type of each source type, per the fixed mapping table. TEXTO is
declared as a fixed-size character buffer. -/
def cTypeOf : XuType → String
  | .int => "int"
  | .real => "double"
  | .texto => "char"
  | .logico => "int"

/-- The scan (read) format specifier of each source type. -/
def readFmt : XuType → String
  | .int => "%d"
  | .real => "%lf"
  | .texto => "%s"
  | .logico => "%d"

/-- The print (write) format specifier of each source type. -/
def writeFmt : XuType → String
  | .int => "%d"
  | .real => "%f"
  | .texto => "%s"
  | .logico => "%d"

/-- The scanf argument: the bare buffer for TEXTO, the address of the
variable otherwise. -/
def scanArg (t : XuType) (x : String) : String :=
  match t with
  | .texto => x
  | _ => "&" ++ x

/-- The emitted C declaration of one variable, in original order inside
main: TEXTO becomes a fixed-size character buffer, the other types use
the mapped C type. -/
def declLine (d : Decl) : String :=
  match d.ty with
  | .texto => "    char " ++ d.name ++ "[256];"
  | t => "    " ++ cTypeOf t ++ " " ++ d.name ++ ";"

/-- C rendering of an arithmetic expression: operators map one-to-one and
parentheses are preserved. -/
def exprC : AExp → String
  | .intLit n => toString n
  | .realLit s => s
  | .var x _ => x
  | .bin op l r _ => exprC l ++ " " ++ op ++ " " ++ exprC r
  | .paren e => "(" ++ exprC e ++ ")"

/-- One-to-one mapping of comparison operators; only <> changes
spelling, to !=. -/
def cmpOpC (op : String) : String :=
  if op = "<>" then "!=" else op

/-- C rendering of a relational expression: E maps to && and OU to ||. -/
def relC : RExp → String
  | .cmp op l r _ => exprC l ++ " " ++ cmpOpC op ++ " " ++ exprC r
  | .andE l r => relC l ++ " && " ++ relC r
  | .orE l r => relC l ++ " || " ++ relC r
  | .paren r => "(" ++ relC r ++ ")"

mutual

/-- Modelled from the spec: C lines emitted for one statement
(xu_compiler.py is absent). Read emits a format-matched scanf, Write a
format-matched printf (string literals verbatim), If/While/Block map
one-to-one onto C with nesting and order preserved. The generator runs
only on semantically valid input, so the undeclared-variable fallbacks
are unreachable there. -/
def genStmt (st : SymbolTable) : Stmt → List String
  | .assign x e _ => ["    " ++ x ++ " = " ++ exprC e ++ ";"]
  | .readS x _ =>
    match lookupVar st x with
    | some t => ["    scanf(\"" ++ readFmt t ++ "\", " ++ scanArg t x ++ ");"]
    | none => []
  | .writeIdent x _ =>
    match lookupVar st x with
    | some t => ["    printf(\"" ++ writeFmt t ++ "\\n\", " ++ x ++ ");"]
    | none => []
  | .writeStr s _ => ["    printf(\"" ++ s ++ "\\n\");"]
  | .ifS c thenB elseB _ =>
    ["    if (" ++ relC c ++ ") \x7b"] ++ genStmts st thenB ++
      (if elseB.isEmpty then [] else
        ["    \x7d else \x7b"] ++ genStmts st elseB) ++
      ["    \x7d"]
  | .whileS c body _ =>
    ["    while (" ++ relC c ++ ") \x7b"] ++ genStmts st body ++ ["    \x7d"]
  | .block body _ => ["    \x7b"] ++ genStmts st body ++ ["    \x7d"]

/-- C lines of a statement list, in program order, never reordered. -/
def genStmts (st : SymbolTable) : List Stmt → List String
  | [] => []
  | s :: rest => genStmt st s ++ genStmts st rest

end

/-- Modelled from the spec: the code generator. A deterministic function
of the AST and symbol table producing a complete C translation unit. -/
def generate (p : Program) (st : SymbolTable) : String :=
  "#include <stdio.h>\n\nint main() \x7b\n" ++
    String.intercalate "\n"
      (p.decls.map declLine ++ genStmts st p.stmts ++
        ["    return 0;", "\x7d"]) ++ "\n"

/-- Diagnostic line printed for a lexical error. -/
def renderLex (e : LexErr) : String :=
  "Erro lexico: " ++ e.msg ++ " (linha " ++ toString e.line ++
    ", coluna " ++ toString e.col ++ ")"

/-- Diagnostic line printed for a syntax error. -/
def renderSyn (e : SynErr) : String :=
  "Erro sintatico: " ++ e.msg ++ " (linha " ++ toString e.line ++
    ", coluna " ++ toString e.col ++ ")"

/-- Diagnostic line printed for a semantic error. -/
def renderSem : SemErr → String
  | .redecl name line =>
    "Erro semantico: redeclaracao de " ++ name ++ " (linha " ++
      toString line ++ ")"
  | .undeclared name line =>
    "Erro semantico: variavel nao declarada " ++ name ++ " (linha " ++
      toString line ++ ")"
  | .mismatch expected found line =>
    "Erro semantico: tipo incompativel, esperado " ++ expected ++
      ", encontrado " ++ found ++ " (linha " ++ toString line ++ ")"

/-- What the compiler process writes: generated C on standard output,
diagnostic lines on standard error. -/
structure CompilerOut where
  stdoutC : String
  stderrLines : List String
deriving DecidableEq

/-- Modelled from the spec: the whole xu_compiler.py pipeline (absent
from the snapshot). Strict short-circuit: a lexical or syntax error is
fatal and single; semantic errors are collected in full; the code
generator runs only when the diagnostics list is empty. -/
def xuCompile (src : String) : CompilerOut :=
  match lex src with
  | .error e => ⟨"", [renderLex e]⟩
  | .ok toks =>
    match parseProgram toks with
    | .error e => ⟨"", [renderSyn e]⟩
    | .ok p =>
      let r := analyze p
      match r.2 with
      | [] => ⟨generate p r.1, []⟩
      | errs => ⟨"", errs.map renderSem⟩

/-- The two response fields built by the /apicompile handler from the
output of the compiler process (part_001, lines 144-148 on compiler failure
and 151-156 on success; both map standard output to c_code and the
non-empty standard-error lines to errors). -/
structure CompileResponse where
  c_code : String
  errors : List String
deriving DecidableEq

/-- The response construction of the handler, embedded from part_001: c_code
is the standard output of the compiler and errors are its standard-error
lines, filtered for non-emptiness as split(...).filter(Boolean) does. -/
def serverResponse (src : String) : CompileResponse :=
  let out := xuCompile src
  ⟨out.stdoutC, out.stderrLines.filter (fun l => !(l == ""))⟩

/-- JavaScript values as far as the stdin-building code of part_001
(lines 188-200) inspects them: strings, numbers, booleans, and objects
with or without a value field. -/
inductive JVal where
  | str (s : String)
  | num (n : Int)
  | boolv (b : Bool)
  | objV (v : JVal)
  | objNoValue
deriving DecidableEq

/-- The typeof x === 'object' test of line 193. -/
def jsTypeofObject : JVal → Bool
  | .objV _ => true
  | .objNoValue => true
  | _ => false

/-- The check of line 193 that the value key is present. -/
def jsHasValueField : JVal → Bool
  | .objV _ => true
  | _ => false

/-- JavaScript String(x) on the values above. -/
def jsString : JVal → String
  | .str s => s
  | .num n => toString n
  | .boolv b => if b then "true" else "false"
  | .objV _ => "[object Object]"
  | .objNoValue => "[object Object]"

/-- JavaScript String(x.value): the value field when present, otherwise
the undefined rendering. -/
def jsValueField : JVal → String
  | .objV v => jsString v
  | _ => "undefined"

/-- The request fields inspected when building stdin: payload.stdin and
payload.inputs. None models an absent or non-array field. -/
structure StdinPayload where
  stdin : Option JVal
  inputs : Option (List JVal)

/-- The typeof payload.stdin === 'string' test of line 190. -/
def stdinIsString (p : StdinPayload) : Bool :=
  match p.stdin with
  | some (.str _) => true
  | _ => false

/-- Embedded from part_001 lines 188-200: the stdin string fed to the
compiled program. A string payload.stdin wins; otherwise an array
payload.inputs is joined with newlines (dispatching on whether its first
element is an object with a value field) with a trailing newline when
non-empty; otherwise the empty string. -/
def buildStdin (p : StdinPayload) : String :=
  match p.stdin with
  | some (.str s) => s
  | _ =>
    match p.inputs with
    | some l =>
      if l ≠ [] ∧ jsTypeofObject (l.headD .objNoValue) ∧
          jsHasValueField (l.headD .objNoValue) then
        String.intercalate "\n" (l.map jsValueField) ++
          (if l ≠ [] then "\n" else "")
      else
        String.intercalate "\n" (l.map jsString) ++
          (if l ≠ [] then "\n" else "")
    | none => ""

/-- POSIX path segments of a character string: maximal runs separated by
the slash character. Both a leading slash and adjacent slashes produce
empty segments, which path normalization later discards. -/
def splitSegs : List Char → List (List Char)
  | [] => [[]]
  | c :: rest =>
    if c = '/' then [] :: splitSegs rest
    else
      match splitSegs rest with
      | [] => [[c]]
      | s :: ss => (c :: s) :: ss

/-- The path.basename of Node on POSIX paths: the last non-empty segment, or
empty when there is none (trailing separators ignored). -/
def basenameL (cs : List Char) : List Char :=
  ((splitSegs cs).filter (fun s => s ≠ [])).getLastD []

/-- String form of path.basename, as applied at part_001 line 115 to
every supplied file name and at line 131 to the entry name. -/
def basenameStr (s : String) : String :=
  ⟨basenameL s.data⟩

/-- One step of path normalization: empty and dot segments are dropped
and a dot-dot segment pops the last kept segment (above the root it is
ignored, as for absolute POSIX paths). -/
def pushSeg (stack : List (List Char)) (s : List Char) : List (List Char) :=
  if s = [] ∨ s = ['.'] then stack
  else if s = ['.', '.'] then stack.dropLast
  else stack ++ [s]

/-- Render an absolute path from its normalized segments. -/
def renderAbs (segs : List (List Char)) : List Char :=
  if segs = [] then ['/']
  else segs.foldl (fun acc s => acc ++ '/' :: s) []

/-- The path.join(dir, name) of Node for an absolute dir: concatenate with a
separator and normalize, as used at part_001 lines 116 and 131. -/
def joinPathL (dir name : List Char) : List Char :=
  renderAbs ((splitSegs (dir ++ '/' :: name)).foldl pushSeg [])

/-- A path is strictly inside a directory when the directory plus a
separator starts it. -/
def isInsideB (dir p : List Char) : Bool :=
  List.isPrefixOf (dir ++ ['/']) p

/-- The path at which the handler writes a supplied file, embedded from
part_001 lines 115-116: the per-request directory joined with the
basename of the supplied name. -/
def resolvedWritePath (dir name : String) : List Char :=
  joinPathL dir.data (basenameL name.data)

/-- Events observable from a spawned child process, in order: chunks on
stdout or stderr, then at most one termination (exit with code and
signal, or a spawn error). -/
inductive PEvent where
  | outData (s : String)
  | errData (s : String)
  | exited (code : Option Int) (signal : Option String)
  | failed (msg : String)
deriving DecidableEq

/-- The value a runProgramWithStdin promise resolves with (part_001
lines 60-72): collected stdout and stderr, exit code and signal, or an
error string on spawn failure. -/
structure RunResult where
  stdout : String
  stderr : String
  code : Option Int
  signal : Option String
  error : Option String
deriving DecidableEq

/-- A terminal event settles the promise. -/
def isTerminal : PEvent → Bool
  | .exited _ _ => true
  | .failed _ => true
  | _ => false

/-- Embedded from part_001 lines 49-96: the event handlers of
runProgramWithStdin folded over the event trace of the child. Data events
accumulate; the first terminal event resolves with the output collected
so far (the exited flag makes later events no-ops); the promise exposes
no rejection path, so the result is a resolved value or still-pending. -/
def runTrace (outAcc errAcc : String) : List PEvent → Option RunResult
  | [] => none
  | .outData s :: rest => runTrace (outAcc ++ s) errAcc rest
  | .errData s :: rest => runTrace outAcc (errAcc ++ s) rest
  | .exited code signal :: _ => some ⟨outAcc, errAcc, code, signal, none⟩
  | .failed msg :: _ => some ⟨outAcc, errAcc, none, none, some msg⟩

/-- The whole observable run of the child, from empty accumulators. -/
def runProgramResult (trace : List PEvent) : Option RunResult :=
  runTrace "" "" trace

/-- The default timeout of runProgramWithStdin, part_001 line 47. -/
def defaultTimeoutMs : Nat := 5000

/-- The grace delay before SIGKILL, part_001 line 94. -/
def sigkillGraceMs : Nat := 2000

/-- The effective timeout: opts.timeoutMs when it is a number, else the
default (part_001 line 47). -/
def effTimeoutMs (optsTimeout : Option Nat) : Nat :=
  optsTimeout.getD defaultTimeoutMs

/-- The action of the killer timer when it fires (part_001 lines 86-89):
SIGTERM unless the child already exited. -/
def killerSignal (exited : Bool) : Option String :=
  if exited then none else some "SIGTERM"

/-- The action of the grace timer (part_001 lines 90-94): SIGKILL unless the
child exited in the meantime. -/
def graceSignal (exited : Bool) : Option String :=
  if exited then none else some "SIGKILL"

/-- Collected stdout of a trace segment. -/
def collectOut : List PEvent → String
  | [] => ""
  | .outData s :: rest => s ++ collectOut rest
  | _ :: rest => collectOut rest

/-- Collected stderr of a trace segment. -/
def collectErr : List PEvent → String
  | [] => ""
  | .errData s :: rest => s ++ collectErr rest
  | _ :: rest => collectErr rest

/-- One file of a compile request payload. -/
structure ReqFile where
  name : String
  content : String

/-- The payload fields of /apicompile used for the filesystem lifecycle:
the supplied files and the entry name. -/
structure ReqPayload where
  files : List ReqFile
  entry : String

/-- The contents of one temporary directory: file name to content. -/
abbrev DirState := List (String × String)

/-- The temporary filesystem: directory identifier to contents. -/
abbrev ServerFs := List (String × DirState)

/-- Write one file into a directory, overwriting an existing entry of
the same name as fs.writeFileSync does. -/
def writeFile (d : DirState) (name content : String) : DirState :=
  match d with
  | [] => [(name, content)]
  | (n, c) :: rest =>
    if n = name then (name, content) :: rest
    else (n, c) :: writeFile rest name content

/-- The per-request directory contents after the write loop of part_001
lines 114-119: every file stored under the basename of its name. -/
def writeFiles (files : List ReqFile) : DirState :=
  files.foldl (fun d f => writeFile d (basenameStr f.name) f.content) []

/-- First-match lookup of a file in a directory. -/
def lookupFile : DirState → String → Option String
  | [], _ => none
  | (n, c) :: rest, x => if n = x then some c else lookupFile rest x

/-- Lookup of a directory in the temporary filesystem. -/
def lookupDir : ServerFs → String → Option DirState
  | [], _ => none
  | (n, d) :: rest, x => if n = x then some d else lookupDir rest x

/-- The cleanup of part_001 lines 229-236: the directory of the request is
removed from the filesystem. -/
def removeDir (fs : ServerFs) (id : String) : ServerFs :=
  fs.filter (fun kv => !(kv.1 == id))

/-- Embedded from part_001 lines 103-237, with the python and gcc
subprocesses abstracted by the spec-modelled pure compiler: a request
creates a fresh directory, writes the payload files under their
basenames, compiles the entry file resolved the same way, and the
finally-scheduled cleanup removes the directory. Returns the mid-flight
filesystem, the final filesystem and the response. -/
def handleRequest (p : ReqPayload) (freshId : String) (fs : ServerFs) :
    ServerFs × ServerFs × CompileResponse :=
  let dir := writeFiles p.files
  let fsMid := (freshId, dir) :: fs
  let resp :=
    match lookupFile dir (basenameStr p.entry) with
    | some content => serverResponse content
    | none => ⟨"", ["python3: arquivo de entrada nao encontrado"]⟩
  (fsMid, removeDir fsMid freshId, resp)

/-- Whether a parse result is a syntax error. -/
def isSynError {α : Type} : Except SynErr α → Bool
  | .error _ => true
  | .ok _ => false

/-- The token kinds the grammar allows right after ESCREVA: a bare
identifier or a string literal. -/
def writeArgOk : TokKind → Bool
  | .ident _ => true
  | .strLit _ => true
  | _ => false

/-- The end-to-end example program of the spec, section 8. -/
def exampleGood : String :=
  ": DECLARACOES\nidade : INTEIRO\n: PROGRAMA\nLEIA idade\nSE idade >= 18 ENTAO\n    ESCREVA \"Maior de idade\"\nFIM\n"

/-- The end-to-end failing example of the spec, section 8: ESCREVA of an
undeclared variable. -/
def exampleBad : String :=
  ": DECLARACOES\nidade : INTEIRO\n: PROGRAMA\nESCREVA altura\n"

/-- A program whose ESCREVA is followed by an arithmetic expression,
which the grammar does not allow. -/
def exampleWriteExpr : String :=
  ": DECLARACOES\nidade : INTEIRO\n: PROGRAMA\nESCREVA idade + 1\n"

/-! Lemmas relating collected semantic errors to well-typedness. -/

theorem inferA_snd (st : SymbolTable) : (e : AExp) → (inferA st e).2 = tyOf st e
  | .intLit _ => rfl
  | .realLit _ => rfl
  | .var x line => by
    simp only [inferA, tyOf]
    cases lookupVar st x <;> rfl
  | .bin op l r line => by
    simp only [inferA, tyOf, inferA_snd st l, inferA_snd st r]
  | .paren e => by
    simp only [inferA, tyOf, inferA_snd st e]

theorem inferA_fst_nil (st : SymbolTable) :
    (e : AExp) → ((inferA st e).1 = [] ↔ wtA st e = true)
  | .intLit _ => by simp [inferA, wtA]
  | .realLit _ => by simp [inferA, wtA]
  | .var x line => by
    simp only [inferA, wtA]
    cases lookupVar st x <;> simp
  | .bin op l r line => by
    have hl := inferA_fst_nil st l
    have hr := inferA_fst_nil st r
    simp only [inferA, wtA, List.append_eq_nil, inferA_snd st l, inferA_snd st r]
    constructor
    · intro h
      rcases h with ⟨⟨⟨h1, h2⟩, h3⟩, h4⟩
      simp only [Bool.and_eq_true]
      refine ⟨⟨⟨hl.mp h1, hr.mp h2⟩, ?_⟩, ?_⟩
      · by_contra hc
        simp [hc] at h3
      · by_contra hc
        simp [hc] at h4
    · intro h
      simp only [Bool.and_eq_true] at h
      rcases h with ⟨⟨⟨h1, h2⟩, h3⟩, h4⟩
      exact ⟨⟨⟨hl.mpr h1, hr.mpr h2⟩, by simp [h3]⟩, by simp [h4]⟩
  | .paren e => by
    have := inferA_fst_nil st e
    simpa [inferA, wtA] using this

theorem checkRel_nil (st : SymbolTable) :
    (r : RExp) → (checkRel st r = [] ↔ wtRel st r = true)
  | .cmp op l r line => by
    have hl := inferA_fst_nil st l
    have hr := inferA_fst_nil st r
    simp only [checkRel, wtRel, List.append_eq_nil, inferA_snd st l, inferA_snd st r]
    constructor
    · intro h
      rcases h with ⟨⟨⟨h1, h2⟩, h3⟩, h4⟩
      simp only [Bool.and_eq_true]
      refine ⟨⟨⟨hl.mp h1, hr.mp h2⟩, ?_⟩, ?_⟩
      · by_contra hc
        simp [hc] at h3
      · by_contra hc
        simp [hc] at h4
    · intro h
      simp only [Bool.and_eq_true] at h
      rcases h with ⟨⟨⟨h1, h2⟩, h3⟩, h4⟩
      exact ⟨⟨⟨hl.mpr h1, hr.mpr h2⟩, by simp [h3]⟩, by simp [h4]⟩
  | .andE l r => by
    have h1 := checkRel_nil st l
    have h2 := checkRel_nil st r
    simp only [checkRel, wtRel, List.append_eq_nil, Bool.and_eq_true, h1, h2]
  | .orE l r => by
    have h1 := checkRel_nil st l
    have h2 := checkRel_nil st r
    simp only [checkRel, wtRel, List.append_eq_nil, Bool.and_eq_true, h1, h2]
  | .paren r => by
    have := checkRel_nil st r
    simpa [checkRel, wtRel] using this

mutual

theorem checkStmt_nil (st : SymbolTable) :
    (s : Stmt) → (checkStmt st s = [] ↔ wtStmt st s = true)
  | .assign x e line => by
    have he := inferA_fst_nil st e
    simp only [checkStmt, wtStmt]
    cases lookupVar st x with
    | none => simp
    | some t =>
      simp only [List.append_eq_nil, Bool.and_eq_true, inferA_snd st e, he]
      constructor
      · intro h
        refine ⟨h.1, ?_⟩
        by_contra hc
        simp [hc] at h
      · intro h
        exact ⟨h.1, by simp [h.2]⟩
  | .readS x line => by
    simp only [checkStmt, wtStmt]
    cases lookupVar st x <;> simp
  | .writeIdent x line => by
    simp only [checkStmt, wtStmt]
    cases lookupVar st x <;> simp
  | .writeStr s line => by simp [checkStmt, wtStmt]
  | .ifS c thenB elseB line => by
    have h1 := checkRel_nil st c
    have h2 := checkStmts_nil st thenB
    have h3 := checkStmts_nil st elseB
    simp only [checkStmt, wtStmt, List.append_eq_nil, Bool.and_eq_true, h1, h2,
      h3, and_assoc]
  | .whileS c body line => by
    have h1 := checkRel_nil st c
    have h2 := checkStmts_nil st body
    simp only [checkStmt, wtStmt, List.append_eq_nil, Bool.and_eq_true, h1, h2]
  | .block body line => by
    have := checkStmts_nil st body
    simpa [checkStmt, wtStmt] using this

theorem checkStmts_nil (st : SymbolTable) :
    (l : List Stmt) → (checkStmts st l = [] ↔ wtStmts st l = true)
  | [] => by simp [checkStmts, wtStmts]
  | s :: rest => by
    have h1 := checkStmt_nil st s
    have h2 := checkStmts_nil st rest
    simp only [checkStmts, wtStmts, List.append_eq_nil, Bool.and_eq_true, h1, h2]

end

theorem buildTableGo_nil :
    (ds : List Decl) → (acc : SymbolTable) →
      ((buildTableGo acc ds).2 = [] ↔ uniqueFrom acc ds = true)
  | [], acc => by simp [buildTableGo, uniqueFrom]
  | d :: rest, acc => by
    simp only [buildTableGo, uniqueFrom]
    cases h : lookupVar acc d.name with
    | none =>
      have := buildTableGo_nil rest (acc ++ [(d.name, d.ty)])
      simpa [h] using this
    | some t => simp [h]

theorem analyze_nil_iff (p : Program) :
    (analyze p).2 = [] ↔ wellTypedProgram p = true := by
  have h1 := buildTableGo_nil p.decls []
  have h2 := checkStmts_nil (buildTable p.decls).1 p.stmts
  simp only [analyze, wellTypedProgram, List.append_eq_nil, Bool.and_eq_true,
    buildTable] at h1 h2 ⊢
  exact and_congr h1 h2

/-! Lemmas about emptiness of rendered output. -/

theorem string_append_eq_empty (a b : String) :
    (a ++ b) = "" ↔ a = "" ∧ b = "" := by
  constructor
  · intro h
    have hd : (a ++ b).data = a.data ++ b.data := by simp
    rw [h] at hd
    rcases List.append_eq_nil.mp hd.symm with ⟨h1, h2⟩
    exact ⟨by cases a; simp_all, by cases b; simp_all⟩
  · rintro ⟨rfl, rfl⟩
    rfl

theorem append_ne_empty_left (a b : String) (ha : a ≠ "") : a ++ b ≠ "" := by
  intro h
  exact ha ((string_append_eq_empty a b).mp h).1

theorem str_empty_append (s : String) : "" ++ s = s := rfl

theorem generate_ne_empty (p : Program) (st : SymbolTable) :
    generate p st ≠ "" := by
  unfold generate
  apply append_ne_empty_left
  apply append_ne_empty_left
  decide

theorem renderLex_ne_empty (e : LexErr) : renderLex e ≠ "" := by
  unfold renderLex
  apply append_ne_empty_left
  apply append_ne_empty_left
  apply append_ne_empty_left
  apply append_ne_empty_left
  apply append_ne_empty_left
  apply append_ne_empty_left
  decide

theorem renderSyn_ne_empty (e : SynErr) : renderSyn e ≠ "" := by
  unfold renderSyn
  apply append_ne_empty_left
  apply append_ne_empty_left
  apply append_ne_empty_left
  apply append_ne_empty_left
  apply append_ne_empty_left
  apply append_ne_empty_left
  decide

theorem renderSem_ne_empty (e : SemErr) : renderSem e ≠ "" := by
  cases e with
  | redecl name line =>
    apply append_ne_empty_left
    apply append_ne_empty_left
    apply append_ne_empty_left
    apply append_ne_empty_left
    decide
  | undeclared name line =>
    apply append_ne_empty_left
    apply append_ne_empty_left
    apply append_ne_empty_left
    apply append_ne_empty_left
    decide
  | mismatch expected found line =>
    apply append_ne_empty_left
    apply append_ne_empty_left
    apply append_ne_empty_left
    apply append_ne_empty_left
    apply append_ne_empty_left
    apply append_ne_empty_left
    decide

theorem filter_keeps_nonempty (l : List String) (hne : l ≠ [])
    (hall : ∀ x ∈ l, x ≠ "") : l.filter (fun s => !(s == "")) ≠ [] := by
  cases l with
  | nil => exact absurd rfl hne
  | cons a rest =>
    have ha : a ≠ "" := hall a (by simp)
    simp only [List.filter]
    have : (!(a == "")) = true := by
      simp [ha]
    rw [this]
    simp

/-! Lemmas about path segments and basename confinement. -/

theorem splitSegs_ne_nil : (cs : List Char) → splitSegs cs ≠ []
  | [] => by simp [splitSegs]
  | c :: rest => by
    have ih := splitSegs_ne_nil rest
    by_cases h : c = '/'
    · simp [splitSegs, h]
    · simp only [splitSegs, if_neg h]
      cases hs : splitSegs rest with
      | nil => simp
      | cons a l => simp

theorem splitSegs_append : (a b : List Char) →
    splitSegs (a ++ '/' :: b) = splitSegs a ++ splitSegs b
  | [], b => by simp [splitSegs]
  | c :: a, b => by
    have ih := splitSegs_append a b
    by_cases h : c = '/'
    · simp [splitSegs, h, ih]
    · simp only [List.cons_append, splitSegs, if_neg h, List.append_eq]
      rw [ih]
      cases hs : splitSegs a with
      | nil => exact absurd hs (splitSegs_ne_nil a)
      | cons s ss => simp

theorem splitSegs_no_slash : (cs : List Char) → ('/' : Char) ∉ cs →
    splitSegs cs = [cs]
  | [], _ => rfl
  | c :: rest, h => by
    have hc : c ≠ '/' := fun hc => h (hc ▸ List.mem_cons_self c rest)
    have hrest : ('/' : Char) ∉ rest := fun hr => h (List.mem_cons_of_mem c hr)
    simp only [splitSegs, if_neg hc, splitSegs_no_slash rest hrest]

theorem mem_splitSegs_no_slash : (cs : List Char) → (s : List Char) →
    s ∈ splitSegs cs → ('/' : Char) ∉ s
  | [], s, hs => by
    simp [splitSegs] at hs
    simp [hs]
  | c :: rest, s, hs => by
    by_cases h : c = '/'
    · simp only [splitSegs, if_pos h, List.mem_cons] at hs
      cases hs with
      | inl h1 => simp [h1]
      | inr h2 => exact mem_splitSegs_no_slash rest s h2
    · simp only [splitSegs, if_neg h] at hs
      cases hrest : splitSegs rest with
      | nil => exact absurd hrest (splitSegs_ne_nil rest)
      | cons a l =>
        rw [hrest] at hs
        simp only [List.mem_cons] at hs
        cases hs with
        | inl h1 =>
          subst h1
          intro hmem
          cases List.mem_cons.mp hmem with
          | inl h2 => exact h h2.symm
          | inr h3 =>
            exact mem_splitSegs_no_slash rest a (hrest ▸ List.mem_cons_self a l)
              h3
        | inr h2 =>
          exact mem_splitSegs_no_slash rest s (hrest ▸ List.mem_cons_of_mem a h2)

theorem getLastD_preserves {α : Type} (P : α → Prop) :
    (l : List α) → (d : α) → (∀ x ∈ l, P x) → P d → P (l.getLastD d)
  | [], d, _, hd => hd
  | a :: l, d, hl, _ => by
    rw [List.getLastD_cons]
    exact getLastD_preserves P l a (fun x hx => hl x (List.mem_cons_of_mem a hx))
      (hl a (List.mem_cons_self a l))

theorem basenameL_no_slash (cs : List Char) : ('/' : Char) ∉ basenameL cs := by
  unfold basenameL
  apply getLastD_preserves (fun s => ('/' : Char) ∉ s)
  · intro x hx
    exact mem_splitSegs_no_slash cs x (List.mem_of_mem_filter hx)
  · simp

/-! Lemmas about the runner event model. -/

theorem runTrace_append_exited : (pre : List PEvent) →
    (outAcc errAcc : String) → (c : Option Int) → (sig : Option String) →
    (∀ e ∈ pre, isTerminal e = false) →
    runTrace outAcc errAcc (pre ++ [.exited c sig]) =
      some ⟨outAcc ++ collectOut pre, errAcc ++ collectErr pre, c, sig, none⟩
  | [], outAcc, errAcc, c, sig, _ => by
    simp [runTrace, collectOut, collectErr]
  | e :: pre, outAcc, errAcc, c, sig, h => by
    have hpre : ∀ x ∈ pre, isTerminal x = false :=
      fun x hx => h x (List.mem_cons_of_mem e hx)
    cases e with
    | outData s =>
      rw [List.cons_append]
      show runTrace (outAcc ++ s) errAcc (pre ++ [.exited c sig]) = _
      rw [runTrace_append_exited pre (outAcc ++ s) errAcc c sig hpre]
      simp [collectOut, collectErr, String.append_assoc]
    | errData s =>
      rw [List.cons_append]
      show runTrace outAcc (errAcc ++ s) (pre ++ [.exited c sig]) = _
      rw [runTrace_append_exited pre outAcc (errAcc ++ s) c sig hpre]
      simp [collectOut, collectErr, String.append_assoc]
    | exited c2 sig2 => exact absurd (h _ (List.mem_cons_self _ _)) (by simp [isTerminal])
    | failed m => exact absurd (h _ (List.mem_cons_self _ _)) (by simp [isTerminal])

theorem runTrace_append_failed : (pre : List PEvent) →
    (outAcc errAcc : String) → (msg : String) →
    (∀ e ∈ pre, isTerminal e = false) →
    runTrace outAcc errAcc (pre ++ [.failed msg]) =
      some ⟨outAcc ++ collectOut pre, errAcc ++ collectErr pre, none, none,
        some msg⟩
  | [], outAcc, errAcc, msg, _ => by
    simp [runTrace, collectOut, collectErr]
  | e :: pre, outAcc, errAcc, msg, h => by
    have hpre : ∀ x ∈ pre, isTerminal x = false :=
      fun x hx => h x (List.mem_cons_of_mem e hx)
    cases e with
    | outData s =>
      rw [List.cons_append]
      show runTrace (outAcc ++ s) errAcc (pre ++ [.failed msg]) = _
      rw [runTrace_append_failed pre (outAcc ++ s) errAcc msg hpre]
      simp [collectOut, collectErr, String.append_assoc]
    | errData s =>
      rw [List.cons_append]
      show runTrace outAcc (errAcc ++ s) (pre ++ [.failed msg]) = _
      rw [runTrace_append_failed pre outAcc (errAcc ++ s) msg hpre]
      simp [collectOut, collectErr, String.append_assoc]
    | exited c2 sig2 => exact absurd (h _ (List.mem_cons_self _ _)) (by simp [isTerminal])
    | failed m => exact absurd (h _ (List.mem_cons_self _ _)) (by simp [isTerminal])

/-! Lemma about directory removal. -/

theorem removeDir_of_lookup_none : (fs : ServerFs) → (id : String) →
    lookupDir fs id = none → removeDir fs id = fs
  | [], _, _ => rfl
  | (n, d) :: rest, id, h => by
    by_cases hn : n = id
    · rw [hn] at h
      simp [lookupDir] at h
    · have hrest : lookupDir rest id = none := by
        simpa [lookupDir, hn] using h
      have ih := removeDir_of_lookup_none rest id hrest
      simp only [removeDir, List.filter] at ih ⊢
      have : (!(n == id)) = true := by simp [hn]
      rw [this]
      simp only [ih]

/-! Claim theorems. -/

/-- C1: for every compile request, generated C is produced only when the
diagnostics list is empty. If any lexical, syntax or semantic error is
reported, the pipeline short-circuits before code generation and the
response carries no generated C, only the diagnostics. -/
theorem no_generated_c_with_diagnostics (src : String) :
    ((xuCompile src).stderrLines ≠ [] → (xuCompile src).stdoutC = "") ∧
    ((serverResponse src).errors ≠ [] → (serverResponse src).c_code = "") := by
  have hmain : (xuCompile src).stderrLines ≠ [] → (xuCompile src).stdoutC = "" := by
    unfold xuCompile
    cases hl : lex src with
    | error e => intro _; rfl
    | ok toks =>
      cases hp : parseProgram toks with
      | error e => intro _; simp [hp]
      | ok p =>
        cases h : (analyze p).2 with
        | nil => simp [hp, h]
        | cons a l => simp [hp, h]
  refine ⟨hmain, fun herr => ?_⟩
  have hne : (xuCompile src).stderrLines ≠ [] := by
    intro hnil
    apply herr
    show (xuCompile src).stderrLines.filter (fun l => !(l == "")) = []
    rw [hnil]
    rfl
  exact hmain hne

/-- C1 witness: on the failing example of the spec (ESCREVA of an undeclared
variable) the diagnostics are non-empty and the response carries no C. -/
theorem no_generated_c_with_diagnostics_witness :
    (serverResponse exampleBad).errors ≠ [] ∧
    (serverResponse exampleBad).c_code = "" :=
  ⟨by decide, (no_generated_c_with_diagnostics exampleBad).2 (by decide)⟩

/-- C2: for every invocation of the compile interface, exactly one of the
two output fields is populated: non-empty generated C with an empty
diagnostics list on success, or empty C with a non-empty diagnostics
list on failure — never both and never neither. -/
theorem response_exactly_one_populated (src : String) :
    ((serverResponse src).c_code ≠ "" ∧ (serverResponse src).errors = []) ∨
    ((serverResponse src).c_code = "" ∧ (serverResponse src).errors ≠ []) := by
  have hrepr : serverResponse src =
      ⟨(xuCompile src).stdoutC,
        (xuCompile src).stderrLines.filter (fun l => !(l == ""))⟩ := rfl
  rw [hrepr]
  unfold xuCompile
  cases hl : lex src with
  | error e =>
    right
    refine ⟨rfl, ?_⟩
    exact filter_keeps_nonempty [renderLex e] (by simp)
      (by intro x hx; simp at hx; rw [hx]; exact renderLex_ne_empty e)
  | ok toks =>
    cases hp : parseProgram toks with
    | error e =>
      right
      refine ⟨by simp [hp], ?_⟩
      have : (match parseProgram toks with
          | Except.error e => (⟨"", [renderSyn e]⟩ : CompilerOut)
          | Except.ok p =>
            match (analyze p).2 with
            | [] => ⟨generate p (analyze p).1, []⟩
            | errs => ⟨"", errs.map renderSem⟩).stderrLines = [renderSyn e] := by
        simp [hp]
      rw [this]
      exact filter_keeps_nonempty [renderSyn e] (by simp)
        (by intro x hx; simp at hx; rw [hx]; exact renderSyn_ne_empty e)
    | ok p =>
      cases h : (analyze p).2 with
      | nil =>
        left
        constructor
        · have : (match parseProgram toks with
              | Except.error e => (⟨"", [renderSyn e]⟩ : CompilerOut)
              | Except.ok p =>
                match (analyze p).2 with
                | [] => ⟨generate p (analyze p).1, []⟩
                | errs => ⟨"", errs.map renderSem⟩).stdoutC =
              generate p (analyze p).1 := by
            simp [hp, h]
          rw [this]
          exact generate_ne_empty p (analyze p).1
        · simp [hp, h]
      | cons a l =>
        right
        refine ⟨by simp [hp, h], ?_⟩
        have : (match parseProgram toks with
            | Except.error e => (⟨"", [renderSyn e]⟩ : CompilerOut)
            | Except.ok p =>
              match (analyze p).2 with
              | [] => ⟨generate p (analyze p).1, []⟩
              | errs => ⟨"", errs.map renderSem⟩).stderrLines =
            (a :: l).map renderSem := by
          simp [hp, h]
        rw [this]
        apply filter_keeps_nonempty
        · simp
        · intro x hx
          rcases List.mem_map.mp hx with ⟨e, _, rfl⟩
          exact renderSem_ne_empty e

/-- C3: the semantic analyzer walks the entire AST: the errors of a
statement list are the errors of its head followed by those of the rest,
so no later error is lost to an earlier one; and the collected list is
empty exactly when the program is well-typed. -/
theorem analyzer_collects_all_errors :
    (∀ (st : SymbolTable) (s : Stmt) (rest : List Stmt),
      checkStmts st (s :: rest) = checkStmt st s ++ checkStmts st rest) ∧
    (∀ p : Program, (analyze p).2 = [] ↔ wellTypedProgram p = true) :=
  ⟨fun _ _ _ => rfl, analyze_nil_iff⟩

/-- C4: the code generator maps each source type to C exactly per the
fixed table — INTEIRO to int with %d, REAL to double with read %lf and
write %f, TEXTO to a char buffer with %s, LOGICO to int with %d — in the
emitted declaration, in every Read of the variable and in every Write of
it. -/
theorem type_mapping_table (st : SymbolTable) (x : String) (t : XuType)
    (line : Nat) (h : lookupVar st x = some t) :
    genStmt st (.readS x line) =
      ["    scanf(\"" ++ readFmt t ++ "\", " ++ scanArg t x ++ ");"] ∧
    genStmt st (.writeIdent x line) =
      ["    printf(\"" ++ writeFmt t ++ "\\n\", " ++ x ++ ");"] ∧
    (t = .texto → declLine ⟨x, t, line⟩ = "    char " ++ x ++ "[256];") ∧
    (t ≠ .texto → declLine ⟨x, t, line⟩ =
      "    " ++ cTypeOf t ++ " " ++ x ++ ";") ∧
    (cTypeOf .int = "int" ∧ readFmt .int = "%d" ∧ writeFmt .int = "%d") ∧
    (cTypeOf .real = "double" ∧ readFmt .real = "%lf" ∧
      writeFmt .real = "%f") ∧
    (readFmt .texto = "%s" ∧ writeFmt .texto = "%s") ∧
    (cTypeOf .logico = "int" ∧ readFmt .logico = "%d" ∧
      writeFmt .logico = "%d") := by
  refine ⟨by simp [genStmt, h], by simp [genStmt, h], ?_, ?_, by decide,
    by decide, by decide, by decide⟩
  · intro ht
    subst ht
    rfl
  · intro ht
    cases t with
    | texto => exact absurd rfl ht
    | int => rfl
    | real => rfl
    | logico => rfl

/-- C4 witness: the table instantiated at an INTEIRO variable. -/
theorem type_mapping_table_witness :
    lookupVar [("idade", XuType.int)] "idade" = some XuType.int ∧
    genStmt [("idade", XuType.int)] (.readS "idade" 4) =
      ["    scanf(\"%d\", &idade);"] ∧
    genStmt [("idade", XuType.int)] (.writeIdent "idade" 5) =
      ["    printf(\"%d\\n\", idade);"] := by
  have h := type_mapping_table [("idade", XuType.int)] "idade" XuType.int 4
    (by decide)
  have h5 := type_mapping_table [("idade", XuType.int)] "idade" XuType.int 5
    (by decide)
  exact ⟨by decide, h.1, h5.2.1⟩

/-- C5: compiling the same source text twice produces byte-identical
generated C, and code generation is a deterministic function of the AST
and symbol table. -/
theorem compilation_deterministic :
    (∀ s1 s2 : String, s1 = s2 →
      (xuCompile s1).stdoutC = (xuCompile s2).stdoutC) ∧
    (∀ (p : Program) (st : SymbolTable), generate p st = generate p st) :=
  ⟨fun _ _ h => by rw [h], fun _ _ => rfl⟩

/-- C5 witness: determinism applied to the end-to-end example of the spec. -/
theorem compilation_deterministic_witness :
    (xuCompile exampleGood).stdoutC = (xuCompile exampleGood).stdoutC :=
  compilation_deterministic.1 exampleGood exampleGood rfl

/-- C6: ESCREVA accepts only a bare identifier or a string literal: any
other following token is a SyntaxError for every fuel, and the concrete
program writing the arithmetic expression idade + 1 is rejected by the
parser with a single syntax diagnostic and no generated C, never
reaching semantic analysis. -/
theorem write_argument_identifier_or_string :
    (∀ (fuel line col : Nat) (t : Token) (rest : List Token),
      writeArgOk t.kind = false →
      isSynError (parseStmt fuel (⟨.kw "ESCREVA", line, col⟩ :: t :: rest)) =
        true) ∧
    (serverResponse exampleWriteExpr).c_code = "" ∧
    (serverResponse exampleWriteExpr).errors =
      ["Erro sintatico: simbolo inesperado apos o programa (linha 4, coluna 15)"] := by
  refine ⟨?_, by decide, by decide⟩
  intro fuel line col t rest hbad
  cases fuel with
  | zero => rfl
  | succ n =>
    obtain ⟨k, tl, tc⟩ := t
    cases k with
    | kw s => rfl
    | ident s => simp [writeArgOk] at hbad
    | intLit m => rfl
    | realLit s => rfl
    | strLit s => simp [writeArgOk] at hbad
    | op s => rfl

/-- C6 witness: the universal part applied to a plus token after
ESCREVA. -/
theorem write_argument_identifier_or_string_witness :
    writeArgOk (TokKind.op "+") = false ∧
    isSynError (parseStmt 5 [⟨.kw "ESCREVA", 4, 1⟩, ⟨.op "+", 4, 9⟩]) = true :=
  ⟨rfl, write_argument_identifier_or_string.1 5 4 1 ⟨.op "+", 4, 9⟩ [] rfl⟩

/-- C7: each compilation request uses only state created fresh for that
request and discards it on completion: while a request is in flight no
directory of any other request is touched, the filesystem is restored once the
scheduled cleanup runs, and the response is a function of the payload
alone, independent of the state of any other request or of the directory
identifier. -/
theorem per_request_state_isolated (p : ReqPayload) (freshId : String)
    (fs : ServerFs) (hfresh : lookupDir fs freshId = none) :
    (∀ j, j ≠ freshId →
      lookupDir (handleRequest p freshId fs).1 j = lookupDir fs j) ∧
    (handleRequest p freshId fs).2.1 = fs ∧
    (∀ (fs2 : ServerFs) (id2 : String),
      (handleRequest p freshId fs).2.2 = (handleRequest p id2 fs2).2.2) := by
  refine ⟨?_, ?_, fun _ _ => rfl⟩
  · intro j hj
    show lookupDir ((freshId, writeFiles p.files) :: fs) j = lookupDir fs j
    have : freshId ≠ j := fun h => hj h.symm
    simp [lookupDir, this]
  · show removeDir ((freshId, writeFiles p.files) :: fs) freshId = fs
    simp only [removeDir, List.filter, beq_self_eq_true, Bool.not_true]
    exact removeDir_of_lookup_none fs freshId hfresh

/-- C7 witness: a concrete request against the empty filesystem. -/
theorem per_request_state_isolated_witness :
    lookupDir [] "xu_a1b2c3" = none ∧
    (handleRequest ⟨[⟨"program.xu", "x"⟩], "program.xu"⟩ "xu_a1b2c3"
      []).2.1 = [] :=
  ⟨rfl,
    (per_request_state_isolated ⟨[⟨"program.xu", "x"⟩], "program.xu"⟩
      "xu_a1b2c3" [] rfl).2.1⟩

/-- C8 counterexample: the claim that a file name containing directory
components can never resolve outside the per-request directory is false
as stated: the name a/.. has directory components, its basename is ..,
and the resolved write path is the parent of the directory, not inside
it. -/
theorem basename_confinement_counterexample :
    resolvedWritePath "/tmp/xu_abc123" "a/.." = "/tmp".data ∧
    isInsideB "/tmp/xu_abc123".data
      (resolvedWritePath "/tmp/xu_abc123" "a/..") = false := by
  constructor
  · decide
  · decide

/-- C8 amended: every supplied file name resolves to the per-request
directory joined with its basename, which contains no separator; when
that basename is not empty and not a dot form the resolved path is
strictly inside the directory, and in the remaining degenerate cases it
is exactly the directory itself (basename empty or a single dot) or its
parent (basename dot-dot) — never any deeper outside path, so a name
like ../../x stays inside. -/
theorem basename_resolution_confined (tmp d : List Char) (name : String)
    (htmp : ('/' : Char) ∉ tmp) (hd : ('/' : Char) ∉ d)
    (htne : tmp ≠ []) (hdne : d ≠ [])
    (htdot1 : tmp ≠ ['.']) (htdot2 : tmp ≠ ['.', '.'])
    (hddot1 : d ≠ ['.']) (hddot2 : d ≠ ['.', '.']) :
    (basenameL name.data ≠ [] → basenameL name.data ≠ ['.'] →
      basenameL name.data ≠ ['.', '.'] →
      resolvedWritePath ⟨'/' :: tmp ++ '/' :: d⟩ name =
        ('/' :: tmp ++ '/' :: d) ++ '/' :: basenameL name.data ∧
      isInsideB ('/' :: tmp ++ '/' :: d)
        (resolvedWritePath ⟨'/' :: tmp ++ '/' :: d⟩ name) = true) ∧
    (basenameL name.data = ['.', '.'] →
      resolvedWritePath ⟨'/' :: tmp ++ '/' :: d⟩ name = '/' :: tmp) ∧
    ((basenameL name.data = [] ∨ basenameL name.data = ['.']) →
      resolvedWritePath ⟨'/' :: tmp ++ '/' :: d⟩ name =
        '/' :: tmp ++ '/' :: d) := by
  have hb := basenameL_no_slash name.data
  have hsplit : splitSegs (('/' :: tmp ++ '/' :: d) ++ '/' :: basenameL name.data)
      = [] :: tmp :: d :: splitSegs (basenameL name.data) := by
    have h1 : ('/' :: tmp ++ '/' :: d) ++ '/' :: basenameL name.data =
        '/' :: (tmp ++ '/' :: (d ++ '/' :: basenameL name.data)) := by
      simp
    rw [h1]
    have h2 : splitSegs ('/' :: (tmp ++ '/' :: (d ++ '/' :: basenameL name.data)))
        = [] :: splitSegs (tmp ++ '/' :: (d ++ '/' :: basenameL name.data)) := by
      simp [splitSegs]
    rw [h2, splitSegs_append tmp (d ++ '/' :: basenameL name.data),
      splitSegs_no_slash tmp htmp,
      splitSegs_append d (basenameL name.data),
      splitSegs_no_slash d hd]
    simp
  have hpush1 : pushSeg [] [] = [] := by simp [pushSeg]
  have hpush2 : pushSeg [] tmp = [tmp] := by
    simp [pushSeg, htne, htdot1, htdot2]
  have hpush3 : pushSeg [tmp] d = [tmp, d] := by
    simp [pushSeg, hdne, hddot1, hddot2]
  refine ⟨?_, ?_, ?_⟩
  · intro hb1 hb2 hb3
    have hbs : splitSegs (basenameL name.data) = [basenameL name.data] :=
      splitSegs_no_slash _ hb
    have hpush4 : pushSeg [tmp, d] (basenameL name.data) =
        [tmp, d, basenameL name.data] := by
      simp [pushSeg, hb1, hb2, hb3]
    constructor
    · show renderAbs ((splitSegs _).foldl pushSeg []) = _
      rw [hsplit, hbs]
      simp only [List.foldl, hpush1, hpush2, hpush3, hpush4]
      simp [renderAbs]
    · show isInsideB _ (renderAbs ((splitSegs _).foldl pushSeg [])) = true
      rw [hsplit, hbs]
      simp only [List.foldl, hpush1, hpush2, hpush3, hpush4]
      have hr : renderAbs [tmp, d, basenameL name.data] =
          (('/' :: tmp ++ '/' :: d) ++ ['/']) ++ basenameL name.data := by
        simp [renderAbs]
      rw [hr]
      unfold isInsideB
      rw [List.isPrefixOf_iff_prefix]
      exact List.prefix_append _ _
  · intro hb2
    have hbs : splitSegs (basenameL name.data) = [basenameL name.data] :=
      splitSegs_no_slash _ hb
    have hpush4 : pushSeg [tmp, d] (basenameL name.data) = [tmp] := by
      rw [hb2]
      simp [pushSeg]
    show renderAbs ((splitSegs _).foldl pushSeg []) = _
    rw [hsplit, hbs]
    simp only [List.foldl, hpush1, hpush2, hpush3, hpush4]
    simp [renderAbs]
  · intro hb2
    have hbs : splitSegs (basenameL name.data) = [basenameL name.data] :=
      splitSegs_no_slash _ hb
    have hpush4 : pushSeg [tmp, d] (basenameL name.data) = [tmp, d] := by
      cases hb2 with
      | inl h => rw [h]; simp [pushSeg]
      | inr h => rw [h]; simp [pushSeg]
    show renderAbs ((splitSegs _).foldl pushSeg []) = _
    rw [hsplit, hbs]
    simp only [List.foldl, hpush1, hpush2, hpush3, hpush4]
    simp [renderAbs]

/-- C8 witness: the amended statement instantiated at the example name
../../x inside /tmp/xu_abc123: the resolved path is strictly inside. -/
theorem basename_resolution_confined_witness :
    resolvedWritePath ⟨'/' :: "tmp".data ++ '/' :: "xu_abc123".data⟩
        "../../x" =
      ('/' :: "tmp".data ++ '/' :: "xu_abc123".data) ++ '/' :: "x".data ∧
    isInsideB ('/' :: "tmp".data ++ '/' :: "xu_abc123".data)
      (resolvedWritePath ⟨'/' :: "tmp".data ++ '/' :: "xu_abc123".data⟩
        "../../x") = true := by
  have h := (basename_resolution_confined "tmp".data "xu_abc123".data
    "../../x" (by decide) (by decide) (by decide) (by decide) (by decide)
    (by decide) (by decide) (by decide)).1 (by decide) (by decide) (by decide)
  exact ⟨h.1, h.2⟩

/-- C9: runProgramWithStdin never rejects and resolves as soon as the
child terminates: for every run whose trace ends in an exit or a spawn
error, the promise resolves with the stdout and stderr collected up to
that point plus the exit code and signal (or the error string); the
default timeout is 5000 ms, the SIGKILL grace is 2000 ms, and the two
kill timers send SIGTERM and SIGKILL exactly when the child has not
already exited. -/
theorem runner_resolves_with_collected_output :
    (∀ (pre : List PEvent) (c : Option Int) (sig : Option String),
      (∀ e ∈ pre, isTerminal e = false) →
      runProgramResult (pre ++ [.exited c sig]) =
        some ⟨collectOut pre, collectErr pre, c, sig, none⟩) ∧
    (∀ (pre : List PEvent) (msg : String),
      (∀ e ∈ pre, isTerminal e = false) →
      runProgramResult (pre ++ [.failed msg]) =
        some ⟨collectOut pre, collectErr pre, none, none, some msg⟩) ∧
    effTimeoutMs none = 5000 ∧ sigkillGraceMs = 2000 ∧
    killerSignal false = some "SIGTERM" ∧ killerSignal true = none ∧
    graceSignal false = some "SIGKILL" ∧ graceSignal true = none := by
  refine ⟨?_, ?_, rfl, rfl, rfl, rfl, rfl, rfl⟩
  · intro pre c sig h
    unfold runProgramResult
    rw [runTrace_append_exited pre "" "" c sig h, str_empty_append,
      str_empty_append]
  · intro pre msg h
    unfold runProgramResult
    rw [runTrace_append_failed pre "" "" msg h, str_empty_append,
      str_empty_append]

/-- C9 witness: a run producing output on both streams and exiting
normally past the collection. -/
theorem runner_resolves_witness :
    (∀ e ∈ [PEvent.outData "a", PEvent.errData "b"], isTerminal e = false) ∧
    runProgramResult
        [PEvent.outData "a", PEvent.errData "b",
          PEvent.exited (some 0) none] =
      some ⟨"a", "b", some 0, none, none⟩ := by
  refine ⟨by decide, ?_⟩
  have h := runner_resolves_with_collected_output.1
    [PEvent.outData "a", PEvent.errData "b"] (some 0) none (by decide)
  simpa using h

/-- C10: the stdin fed to the compiled program: a string payload.stdin
takes precedence; otherwise a non-empty inputs array is stringified —
through the value field when its first element is an object carrying
one, directly otherwise — and joined with newlines plus one trailing
newline; in every other case stdin is the empty string. -/
theorem stdin_construction (p : StdinPayload) :
    (∀ s, p.stdin = some (.str s) → buildStdin p = s) ∧
    (stdinIsString p = false → ∀ l, p.inputs = some l → l ≠ [] →
      jsTypeofObject (l.headD .objNoValue) = true →
      jsHasValueField (l.headD .objNoValue) = true →
      buildStdin p = String.intercalate "\n" (l.map jsValueField) ++ "\n") ∧
    (stdinIsString p = false → ∀ l, p.inputs = some l → l ≠ [] →
      ¬(jsTypeofObject (l.headD .objNoValue) = true ∧
        jsHasValueField (l.headD .objNoValue) = true) →
      buildStdin p = String.intercalate "\n" (l.map jsString) ++ "\n") ∧
    (stdinIsString p = false → (p.inputs = none ∨ p.inputs = some []) →
      buildStdin p = "") := by
  have hrest : stdinIsString p = false →
      buildStdin p = (match p.inputs with
        | some l =>
          if l ≠ [] ∧ jsTypeofObject (l.headD .objNoValue) ∧
              jsHasValueField (l.headD .objNoValue) then
            String.intercalate "\n" (l.map jsValueField) ++
              (if l ≠ [] then "\n" else "")
          else
            String.intercalate "\n" (l.map jsString) ++
              (if l ≠ [] then "\n" else "")
        | none => "") := by
    intro hs
    unfold buildStdin
    cases hv : p.stdin with
    | none => rfl
    | some v =>
      cases v with
      | str s2 => simp [stdinIsString, hv] at hs
      | num n => rfl
      | boolv b => rfl
      | objV w => rfl
      | objNoValue => rfl
  refine ⟨?_, ?_, ?_, ?_⟩
  · intro s hv
    unfold buildStdin
    rw [hv]
  · intro hs l hl hne ht hv
    rw [hrest hs, hl]
    show (if l ≠ [] ∧ jsTypeofObject (l.headD .objNoValue) = true ∧
          jsHasValueField (l.headD .objNoValue) = true then
        String.intercalate "\n" (l.map jsValueField) ++
          (if l ≠ [] then "\n" else "")
      else
        String.intercalate "\n" (l.map jsString) ++
          (if l ≠ [] then "\n" else "")) =
      String.intercalate "\n" (l.map jsValueField) ++ "\n"
    have hcond : l ≠ [] ∧ jsTypeofObject (l.headD .objNoValue) = true ∧
        jsHasValueField (l.headD .objNoValue) = true := ⟨hne, ht, hv⟩
    rw [if_pos hcond, if_pos hne]
  · intro hs l hl hne hnv
    rw [hrest hs, hl]
    show (if l ≠ [] ∧ jsTypeofObject (l.headD .objNoValue) = true ∧
          jsHasValueField (l.headD .objNoValue) = true then
        String.intercalate "\n" (l.map jsValueField) ++
          (if l ≠ [] then "\n" else "")
      else
        String.intercalate "\n" (l.map jsString) ++
          (if l ≠ [] then "\n" else "")) =
      String.intercalate "\n" (l.map jsString) ++ "\n"
    have hcond : ¬(l ≠ [] ∧ jsTypeofObject (l.headD .objNoValue) = true ∧
        jsHasValueField (l.headD .objNoValue) = true) := by
      intro hc
      exact hnv ⟨hc.2.1, hc.2.2⟩
    rw [if_neg hcond, if_pos hne]
  · intro hs hcase
    cases hcase with
    | inl h => rw [hrest hs, h]
    | inr h =>
      rw [hrest hs, h]
      show (if ([] : List JVal) ≠ [] ∧ _ ∧ _ then _ else _) = ""
      simp
      decide

/-- C10 witness: a string stdin wins over inputs; a plain inputs array
is joined with newlines plus a trailing one. -/
theorem stdin_construction_witness :
    buildStdin ⟨some (.str "abc"), some [.num 1]⟩ = "abc" ∧
    buildStdin ⟨none, some [.str "10", .str "oi"]⟩ = "10\noi\n" := by
  constructor
  · exact (stdin_construction ⟨some (.str "abc"), some [.num 1]⟩).1 "abc" rfl
  · have h := (stdin_construction
      ⟨none, some [.str "10", .str "oi"]⟩).2.2.1 rfl
      [.str "10", .str "oi"] rfl (by decide) (by decide)
    simpa using h

end XuLang
